import Mathlib

/-!
# Verification of the tf2_sensor_msgs transform adapters

Shallow embedding of the transform kernels in
`tf2_sensor_msgs/include/tf2_sensor_msgs/tf2_sensor_msgs.h` (and the generic
contract in `tf2/include/tf2/transform_functions.h`).

Modelling conventions:
* Floating-point scalars (`double`, `float`) are modelled by exact rationals
  `ℚ`; the functional and algebraic claims are settled over this idealised
  arithmetic, which is how the spec states them (exact identities, with
  floating point mentioned only as a tolerance).
* The one precision-specific claim (where in the point-cloud path the
  narrowing from `double` to `float` happens) is settled against an explicit
  model `roundF32` of round-to-nearest single-precision narrowing.
* Eigen operations (`Quaternion::toRotationMatrix`, quaternion product,
  `Quaternion::inverse`, affine `Transform` application, quaternion-times-
  matrix products) are translated from Eigen's definitions, since the source
  delegates to them.
* The `sensor_msgs` message types are translated field by field; the packed
  byte buffer of `PointCloud2` is abstracted as a list of per-point records
  holding the `x`/`y`/`z` channels (the ones the iterators touch) plus the
  remaining per-point bytes.
* Mutation of an output message is modelled by pure record construction; the
  aliased call (`data_out` being the very same object as `data_in`, which the
  generic contract in `transform_functions.h` requires to be safe) is
  modelled by threading a single object through the source's statement
  sequence in source order, with element-wise buffer writes made explicit for
  the point-cloud loop.
-/

namespace tf2

/-- 3-vector of scalars; models `Eigen::Vector3d`/`Eigen::Vector3f` and the
`geometry_msgs` vector fields. -/
@[ext]
structure Vector3 where
  x : ℚ
  y : ℚ
  z : ℚ
  deriving DecidableEq

/-- Componentwise vector sum. -/
@[simps]
def Vector3.add (u v : Vector3) : Vector3 where
  x := u.x + v.x
  y := u.y + v.y
  z := u.z + v.z

/-- Quaternion with coefficients `(w, x, y, z)`; models
`Eigen::Quaternion<double>` (and the `geometry_msgs` quaternion, whose fields
are doubles). -/
@[ext]
structure Quaternion where
  w : ℚ
  x : ℚ
  y : ℚ
  z : ℚ
  deriving DecidableEq

/-- 3×3 matrix with entry `(i, j)` stored in field `mij`.  A 9-element
row-major buffer (`boost::array<double, 9>` viewed through
`Eigen::Map<Eigen::Matrix<double, 3, 3, Eigen::RowMajor>>`) holds entry
`(i, j)` at index `3*i + j`, so this structure lists the buffer in order. -/
@[ext]
structure Mat3 where
  m00 : ℚ
  m01 : ℚ
  m02 : ℚ
  m10 : ℚ
  m11 : ℚ
  m12 : ℚ
  m20 : ℚ
  m21 : ℚ
  m22 : ℚ
  deriving DecidableEq

/-- Matrix product, entry `(i,j) = Σ_k A(i,k)·B(k,j)`. -/
@[simps]
def Mat3.mul (a b : Mat3) : Mat3 where
  m00 := a.m00 * b.m00 + a.m01 * b.m10 + a.m02 * b.m20
  m01 := a.m00 * b.m01 + a.m01 * b.m11 + a.m02 * b.m21
  m02 := a.m00 * b.m02 + a.m01 * b.m12 + a.m02 * b.m22
  m10 := a.m10 * b.m00 + a.m11 * b.m10 + a.m12 * b.m20
  m11 := a.m10 * b.m01 + a.m11 * b.m11 + a.m12 * b.m21
  m12 := a.m10 * b.m02 + a.m11 * b.m12 + a.m12 * b.m22
  m20 := a.m20 * b.m00 + a.m21 * b.m10 + a.m22 * b.m20
  m21 := a.m20 * b.m01 + a.m21 * b.m11 + a.m22 * b.m21
  m22 := a.m20 * b.m02 + a.m21 * b.m12 + a.m22 * b.m22

/-- Matrix transpose. -/
@[simps]
def Mat3.transpose (a : Mat3) : Mat3 where
  m00 := a.m00
  m01 := a.m10
  m02 := a.m20
  m10 := a.m01
  m11 := a.m11
  m12 := a.m21
  m20 := a.m02
  m21 := a.m12
  m22 := a.m22

/-- Matrix–vector product. -/
@[simps]
def Mat3.mulVec (a : Mat3) (v : Vector3) : Vector3 where
  x := a.m00 * v.x + a.m01 * v.y + a.m02 * v.z
  y := a.m10 * v.x + a.m11 * v.y + a.m12 * v.z
  z := a.m20 * v.x + a.m21 * v.y + a.m22 * v.z

/-- Quaternion product (Eigen `QuaternionBase::operator*`, the Hamilton
product). -/
@[simps]
def Quaternion.mul (p q : Quaternion) : Quaternion where
  w := p.w * q.w - p.x * q.x - p.y * q.y - p.z * q.z
  x := p.w * q.x + p.x * q.w + p.y * q.z - p.z * q.y
  y := p.w * q.y + p.y * q.w + p.z * q.x - p.x * q.z
  z := p.w * q.z + p.z * q.w + p.x * q.y - p.y * q.x

/-- Eigen `QuaternionBase::conjugate`. -/
@[simps]
def Quaternion.conjugate (q : Quaternion) : Quaternion where
  w := q.w
  x := -q.x
  y := -q.y
  z := -q.z

/-- Eigen `QuaternionBase::squaredNorm`: sum of squares of the four
coefficients. -/
def Quaternion.squaredNorm (q : Quaternion) : ℚ :=
  q.w * q.w + q.x * q.x + q.y * q.y + q.z * q.z

/-- Eigen `QuaternionBase::inverse`: `conjugate() / squaredNorm()` when the
squared norm is positive, the zero quaternion otherwise. -/
def Quaternion.inverse (q : Quaternion) : Quaternion :=
  if 0 < q.squaredNorm then
    ⟨q.w / q.squaredNorm, -q.x / q.squaredNorm, -q.y / q.squaredNorm,
      -q.z / q.squaredNorm⟩
  else ⟨0, 0, 0, 0⟩

/-- Eigen `QuaternionBase::toRotationMatrix` (the normalized-quaternion
conversion; variable names follow Eigen's implementation). -/
@[simps]
def Quaternion.toRotationMatrix (q : Quaternion) : Mat3 :=
  let tx := 2 * q.x
  let ty := 2 * q.y
  let tz := 2 * q.z
  let twx := tx * q.w
  let twy := ty * q.w
  let twz := tz * q.w
  let txx := tx * q.x
  let txy := ty * q.x
  let txz := tz * q.x
  let tyy := ty * q.y
  let tyz := tz * q.y
  let tzz := tz * q.z
  { m00 := 1 - (tyy + tzz), m01 := txy - twz, m02 := txz + twy
    m10 := txy + twz, m11 := 1 - (txx + tzz), m12 := tyz - twx
    m20 := txz - twy, m21 := tyz + twx, m22 := 1 - (txx + tyy) }

/-- Eigen affine `Transform`: a linear part and a translation part.
Applying it to a vector gives `linear · v + translation`. -/
structure Affine3 where
  linear : Mat3
  translation : Vector3

/-- `Eigen::Transform * vector`. -/
def Affine3.apply (t : Affine3) (v : Vector3) : Vector3 :=
  (t.linear.mulVec v).add t.translation

/-- `Eigen::Translation3 * Eigen::Quaternion`: affine transform whose linear
part is the quaternion's rotation matrix and whose translation part is the
given translation (rotation applied first). -/
def translationTimesQuat (tr : Vector3) (q : Quaternion) : Affine3 :=
  ⟨q.toRotationMatrix, tr⟩

/-- `Eigen::Transform<double,3,Affine> t(r)` built from a quaternion alone:
linear part is the rotation matrix, translation part is zero. -/
def affineOfQuat (q : Quaternion) : Affine3 :=
  ⟨q.toRotationMatrix, ⟨0, 0, 0⟩⟩

/-- `std_msgs/Header`: sequence number, stamp (`ros::Time`, modelled as total
nanoseconds) and frame id. -/
structure Header where
  seq : ℕ
  stamp : ℕ
  frame_id : String
  deriving DecidableEq

/-- `geometry_msgs/Transform`: a translation and a rotation quaternion. -/
structure TransformMsg where
  translation : Vector3
  rotation : Quaternion
  deriving DecidableEq

/-- `geometry_msgs/TransformStamped`. -/
structure TransformStamped where
  header : Header
  child_frame_id : String
  transform : TransformMsg
  deriving DecidableEq

/-- `sensor_msgs/PointField`: one channel descriptor of a `PointCloud2`. -/
structure PointField where
  name : String
  offset : ℕ
  datatype : ℕ
  count : ℕ
  deriving DecidableEq

/-- One point of a `PointCloud2` byte buffer: the single-precision `x`, `y`,
`z` channels the iterators address, plus the remaining bytes of the point
record, untouched by the transform. -/
structure CloudPoint where
  x : ℚ
  y : ℚ
  z : ℚ
  rest : List ℕ
  deriving DecidableEq

/-- `sensor_msgs/PointCloud2`, with the packed `data` buffer abstracted as
the list of per-point records. -/
structure PointCloud2 where
  header : Header
  height : ℕ
  width : ℕ
  fields : List PointField
  is_bigendian : Bool
  point_step : ℕ
  row_step : ℕ
  points : List CloudPoint
  is_dense : Bool
  deriving DecidableEq

/-- `sensor_msgs/Imu` (the `_covariance` arrays viewed as row-major 3×3
matrices, see `Mat3`). -/
structure Imu where
  header : Header
  orientation : Quaternion
  orientation_covariance : Mat3
  angular_velocity : Vector3
  angular_velocity_covariance : Mat3
  linear_acceleration : Vector3
  linear_acceleration_covariance : Mat3
  deriving DecidableEq

/-- `sensor_msgs/MagneticField`. -/
structure MagneticField where
  header : Header
  magnetic_field : Vector3
  magnetic_field_covariance : Mat3
  deriving DecidableEq

/-- `transformCovariance` (tf2_sensor_msgs.h, lines 119–126): maps the two
9-element row-major buffers as 3×3 matrices and computes
`cov_out = r * cov_in * r.inverse()`.  In Eigen a quaternion multiplied with
a matrix acts through its rotation matrix, so this is
`R(r) * cov_in * R(r.inverse())`. -/
def transformCovariance (covIn : Mat3) (r : Quaternion) : Mat3 :=
  (r.toRotationMatrix.mul covIn).mul r.inverse.toRotationMatrix

/-- The per-point body of the `PointCloud2` `doTransform` loop (lines 78–84):
`point = t * Vector3f(*x_in, *y_in, *z_in)` followed by writing
`point.x/y/z` to the output channels; the other bytes of the point record are
left as copied. -/
def transformCloudPoint (t : Affine3) (pt : CloudPoint) : CloudPoint :=
  let point := t.apply ⟨pt.x, pt.y, pt.z⟩
  { pt with x := point.x, y := point.y, z := point.z }

/-- `doTransform` for `sensor_msgs::PointCloud2` (lines 61–85):
`p_out = p_in`, then `p_out.header = t_in.header`, then the affine transform
`Translation3f(translation) * Quaternion<float>(rotation)` is applied to
every point of the x/y/z channels in index order.  (Arithmetic is modelled
exactly; the single-precision narrowing of this path is modelled separately
below.) -/
def doTransformPointCloud2 (p_in : PointCloud2) (t_in : TransformStamped) :
    PointCloud2 :=
  let t := translationTimesQuat t_in.transform.translation
    t_in.transform.rotation
  { p_in with
    header := t_in.header
    points := p_in.points.map (transformCloudPoint t) }

/-- The orientation update inside the Imu `doTransform` (lines 162–163):
`orientation = r * q * r.inverse()` (left-associated product). -/
def transformOrientation (r q : Quaternion) : Quaternion :=
  (r.mul q).mul r.inverse

/-- `doTransform` for `sensor_msgs::Imu` (lines 131–172): header from the
transform; angular velocity and linear acceleration rotated through
`Eigen::Transform<double,3,Affine> t(r)` (translation discarded); each of the
three covariance blocks conjugated by the same rotation; orientation
conjugated as `r * q * r.inverse()`. -/
def doTransformImu (imu_in : Imu) (t_in : TransformStamped) : Imu :=
  let r := t_in.transform.rotation
  let t := affineOfQuat r
  { header := t_in.header
    orientation := transformOrientation r imu_in.orientation
    orientation_covariance :=
      transformCovariance imu_in.orientation_covariance r
    angular_velocity := t.apply imu_in.angular_velocity
    angular_velocity_covariance :=
      transformCovariance imu_in.angular_velocity_covariance r
    linear_acceleration := t.apply imu_in.linear_acceleration
    linear_acceleration_covariance :=
      transformCovariance imu_in.linear_acceleration_covariance r }

/-- `doTransform` for `sensor_msgs::MagneticField` (lines 207–228). -/
def doTransformMagneticField (mag_in : MagneticField)
    (t_in : TransformStamped) : MagneticField :=
  let r := t_in.transform.rotation
  let t := affineOfQuat r
  { header := t_in.header
    magnetic_field := t.apply mag_in.magnetic_field
    magnetic_field_covariance :=
      transformCovariance mag_in.magnetic_field_covariance r }

/-! ## Aliased executions

The generic contract (`transform_functions.h`, lines 41–51) requires
`doTransform` to be mutation safe when `data_out` is the very same object as
`data_in`.  The models below execute the source's statement sequence on a
single shared object, in source order, so that every read sees the writes
already performed. -/

/-- One in-place pass over a shared buffer: at each step the element at the
current index is read from the *current* buffer (so writes to earlier cells
are visible), transformed, and written back, and the index advances.  The
fuel argument is the number of remaining iterations. -/
def inPlaceGo {α : Type} (f : α → α) : List α → ℕ → ℕ → List α
  | buf, _, 0 => buf
  | buf, i, fuel + 1 =>
    match buf[i]? with
    | none => buf
    | some a => inPlaceGo f (buf.set i (f a)) (i + 1) fuel

/-- Full in-place pass over a buffer, starting at index 0. -/
def inPlaceMap {α : Type} (f : α → α) (buf : List α) : List α :=
  inPlaceGo f buf 0 buf.length

/-- `doTransform` for `PointCloud2` called with `p_out` aliasing `p_in`:
`p_out = p_in` is a self-assignment (a no-op), the header is overwritten, and
the input and output iterators walk the same buffer, so iteration `i` reads
the shared buffer after the writes of iterations `0..i-1`. -/
def doTransformPointCloud2Aliased (p : PointCloud2) (t_in : TransformStamped) :
    PointCloud2 :=
  let t := translationTimesQuat t_in.transform.translation
    t_in.transform.rotation
  let p1 := { p with header := t_in.header }
  { p1 with points := inPlaceMap (transformCloudPoint t) p1.points }

/-- `doTransform` for `Imu` called with `imu_out` aliasing `imu_in`: the
source's writes are performed in order on the single shared object, each
read taking the field's current value (each vector is read into an Eigen
temporary before its components are written back, and each
`transformCovariance` product is evaluated into a temporary before being
assigned over the shared buffer). -/
def doTransformImuAliased (imu : Imu) (t_in : TransformStamped) : Imu :=
  let r := t_in.transform.rotation
  let t := affineOfQuat r
  let s1 := { imu with header := t_in.header }
  let s2 := { s1 with angular_velocity := t.apply s1.angular_velocity }
  let s3 := { s2 with angular_velocity_covariance :=
    transformCovariance s2.angular_velocity_covariance r }
  let s4 := { s3 with linear_acceleration := t.apply s3.linear_acceleration }
  let s5 := { s4 with linear_acceleration_covariance :=
    transformCovariance s4.linear_acceleration_covariance r }
  let s6 := { s5 with orientation := transformOrientation r s5.orientation }
  { s6 with orientation_covariance :=
    transformCovariance s6.orientation_covariance r }

/-- `doTransform` for `MagneticField` called with `mag_out` aliasing
`mag_in`, in source statement order. -/
def doTransformMagneticFieldAliased (mag : MagneticField)
    (t_in : TransformStamped) : MagneticField :=
  let r := t_in.transform.rotation
  let t := affineOfQuat r
  let s1 := { mag with header := t_in.header }
  let s2 := { s1 with magnetic_field := t.apply s1.magnetic_field }
  { s2 with magnetic_field_covariance :=
    transformCovariance s2.magnetic_field_covariance r }

/-! ## Single-precision narrowing in the point-cloud path

Lines 65–68 build the rotation for the point-cloud path as
`Eigen::Quaternion<float>(w, x, y, z)` from the `double` components of the
transform message, so each component is narrowed to single precision before
the rotation matrix is formed.  `roundF32` models the `double`→`float`
narrowing: round to nearest with a 24-bit significand (half-way cases are
rounded half-up rather than to even, and overflow/subnormals are ignored;
neither difference matters for the inputs used below).  Arithmetic after the
narrowing is modelled exactly, which only under-approximates the code's
single-precision error. -/

/-- `2 ^ e` as a rational, for an integer exponent. -/
def pow2z (e : ℤ) : ℚ :=
  if 0 ≤ e then (2 : ℚ) ^ e.toNat else 1 / (2 : ℚ) ^ (-e).toNat

/-- Greatest `e` with `2 ^ e ≤ a`, for positive `a` (selected from a small
window around a floor/ceiling based seed). -/
def floorLog2 (a : ℚ) : ℤ :=
  let e0 : ℤ :=
    if 1 ≤ a then (Nat.log2 ⌊a⌋.toNat : ℤ) else -(Nat.log2 ⌈a⁻¹⌉.toNat : ℤ)
  if pow2z (e0 + 1) ≤ a then e0 + 1
  else if pow2z e0 ≤ a then e0
  else e0 - 1

/-- Round a rational to the nearest single-precision value (24-bit
significand): the magnitude is rounded onto the grid of step
`2 ^ (e - 23)` of its binade. -/
def roundF32 (q : ℚ) : ℚ :=
  if q = 0 then 0
  else (if q < 0 then (-1 : ℚ) else 1) *
    (round (|q| / pow2z (floorLog2 |q| - 23)) : ℚ) *
    pow2z (floorLog2 |q| - 23)

/-- The quaternion actually constructed at lines 66–68:
`Eigen::Quaternion<float>(w, x, y, z)` narrows each `double` component to
`float`. -/
def quatNarrowF32 (q : Quaternion) : Quaternion :=
  ⟨roundF32 q.w, roundF32 q.x, roundF32 q.y, roundF32 q.z⟩

/-- The rotation matrix the point-cloud path builds: the matrix of the
already-narrowed quaternion (with the arithmetic of the conversion itself
modelled exactly, which is the reading most favourable to the spec's
description). -/
def pointCloudRotationF32 (q : Quaternion) : Mat3 :=
  (quatNarrowF32 q).toRotationMatrix

/-- The per-point rigid transform of the point-cloud path applied to one
position vector: `v' = rotation · v + translation` through the affine
transform built at lines 65–68. -/
def transformPoint (t : TransformMsg) (v : Vector3) : Vector3 :=
  (translationTimesQuat t.translation t.rotation).apply v

/-- Modelled from the spec's composition law (§8): the composed transform
`B∘A`, with rotation `B.rot * A.rot` and translation
`B.rot · A.trans + B.trans`. -/
def composeTransformMsg (b a : TransformMsg) : TransformMsg :=
  ⟨(b.rotation.toRotationMatrix.mulVec a.translation).add b.translation,
    b.rotation.mul a.rotation⟩

/-- Pure quaternion `(0, v)` of a vector. -/
@[simps]
def quatPure (v : Vector3) : Quaternion where
  w := 0
  x := v.x
  y := v.y
  z := v.z

/-- Vector part of a quaternion. -/
@[simps]
def Quaternion.vecPart (q : Quaternion) : Vector3 where
  x := q.x
  y := q.y
  z := q.z

/-- Conjugation action of a quaternion on a vector:
vector part of `q ⊗ (0, v) ⊗ q̄` (proof-layer bridge between the rotation
matrix and the quaternion algebra). -/
def conjAct (q : Quaternion) (v : Vector3) : Vector3 :=
  ((q.mul (quatPure v)).mul q.conjugate).vecPart

/-! ## Helper lemmas -/

/-- For a unit quaternion, Eigen's `inverse()` is the conjugate. -/
theorem Quaternion.inverse_of_unit {r : Quaternion} (h : r.squaredNorm = 1) :
    r.inverse = r.conjugate := by
  simp [Quaternion.inverse, Quaternion.conjugate, h]

/-- Conjugation is an involution. -/
theorem Quaternion.conjugate_conjugate (r : Quaternion) :
    r.conjugate.conjugate = r := by
  ext <;> simp

/-- The conjugate has the same squared norm. -/
theorem Quaternion.squaredNorm_conjugate (r : Quaternion) :
    r.conjugate.squaredNorm = r.squaredNorm := by
  simp only [Quaternion.squaredNorm, Quaternion.conjugate]
  ring

/-- The squared norm is multiplicative. -/
theorem Quaternion.squaredNorm_mul (p q : Quaternion) :
    (p.mul q).squaredNorm = p.squaredNorm * q.squaredNorm := by
  simp only [Quaternion.squaredNorm, Quaternion.mul]
  ring

/-- The rotation matrix of the conjugate quaternion is the transpose of the
rotation matrix (an identity of the normalized conversion formula, no norm
assumption needed). -/
theorem Quaternion.toRotationMatrix_conjugate (r : Quaternion) :
    r.conjugate.toRotationMatrix = r.toRotationMatrix.transpose := by
  ext <;> simp <;> ring

/-- `transformCovariance` for a unit quaternion, in the spec's form
`R · C · Rᵗ`. -/
theorem transformCovariance_eq (covIn : Mat3) {r : Quaternion}
    (h : r.squaredNorm = 1) :
    transformCovariance covIn r =
      (r.toRotationMatrix.mul covIn).mul r.toRotationMatrix.transpose := by
  unfold transformCovariance
  rw [Quaternion.inverse_of_unit h, Quaternion.toRotationMatrix_conjugate]

/-- Transpose of a product. -/
theorem Mat3.transpose_mul (a b : Mat3) :
    (a.mul b).transpose = b.transpose.mul a.transpose := by
  ext <;> simp <;> ring

/-- Transpose is an involution. -/
theorem Mat3.transpose_transpose (a : Mat3) : a.transpose.transpose = a := by
  ext <;> simp

/-- Associativity of the matrix product. -/
theorem Mat3.mul_assoc3 (a b c : Mat3) :
    (a.mul b).mul c = a.mul (b.mul c) := by
  ext <;> simp <;> ring

/-- Matrix–vector product distributes over vector addition. -/
theorem Mat3.mulVec_add (a : Mat3) (u v : Vector3) :
    a.mulVec (u.add v) = (a.mulVec u).add (a.mulVec v) := by
  ext <;> simp <;> ring

/-- For a unit quaternion the rotation matrix acts as the conjugation
action. -/
theorem Quaternion.toRotationMatrix_mulVec_eq_conjAct {q : Quaternion}
    (h : q.squaredNorm = 1) (v : Vector3) :
    q.toRotationMatrix.mulVec v = conjAct q v := by
  have h' : q.w * q.w + q.x * q.x + q.y * q.y + q.z * q.z = 1 := h
  refine Vector3.ext ?_ ?_ ?_ <;>
    simp [conjAct]
  · linear_combination (-v.x) * h'
  · linear_combination (-v.y) * h'
  · linear_combination (-v.z) * h'

/-- The conjugation action turns the quaternion product into composition
(a polynomial identity, no norm assumption needed). -/
theorem conjAct_mul (p q : Quaternion) (v : Vector3) :
    conjAct (p.mul q) v = conjAct p (conjAct q v) := by
  refine Vector3.ext ?_ ?_ ?_ <;>
    simp [conjAct] <;> ring

/-- Rotation matrices compose along the quaternion product, for unit
quaternions. -/
theorem Quaternion.toRotationMatrix_mul_apply {a b : Quaternion}
    (ha : a.squaredNorm = 1) (hb : b.squaredNorm = 1) (v : Vector3) :
    (b.mul a).toRotationMatrix.mulVec v =
      b.toRotationMatrix.mulVec (a.toRotationMatrix.mulVec v) := by
  have hba : (b.mul a).squaredNorm = 1 := by
    rw [Quaternion.squaredNorm_mul, ha, hb]; norm_num
  rw [Quaternion.toRotationMatrix_mulVec_eq_conjAct hba, conjAct_mul,
    ← Quaternion.toRotationMatrix_mulVec_eq_conjAct ha,
    ← Quaternion.toRotationMatrix_mulVec_eq_conjAct hb]

/-- Reading just past a prefix of known length. -/
theorem getElem?_append_len {α : Type} (acc : List α) (a : α)
    (rest : List α) : (acc ++ a :: rest)[acc.length]? = some a := by
  induction acc with
  | nil => simp
  | cons x xs ih => simpa using ih

/-- Writing just past a prefix of known length. -/
theorem set_append_len {α : Type} (acc : List α) (a b : α) (rest : List α) :
    (acc ++ a :: rest).set acc.length b = acc ++ b :: rest := by
  induction acc with
  | nil => rfl
  | cons x xs ih => simp [ih]

/-- The in-place pass starting after an already-processed prefix maps the
remaining suffix: element `i` is read before it is overwritten and no later
element is touched before its own turn, so earlier writes never feed later
reads. -/
theorem inPlaceGo_spec {α : Type} (f : α → α) :
    ∀ (rest acc : List α),
      inPlaceGo f (acc ++ rest) acc.length rest.length =
        acc ++ rest.map f := by
  intro rest
  induction rest with
  | nil => intro acc; simp [inPlaceGo]
  | cons a rest ih =>
    intro acc
    rw [List.length_cons, inPlaceGo, getElem?_append_len]
    dsimp only
    rw [set_append_len]
    have h2 := ih (acc ++ [f a])
    simp only [List.length_append, List.length_singleton,
      List.append_assoc, List.singleton_append] at h2
    simpa using h2

/-- A full in-place pass over a shared buffer computes exactly the map. -/
theorem inPlaceMap_eq_map {α : Type} (f : α → α) (buf : List α) :
    inPlaceMap f buf = buf.map f := by
  simpa using inPlaceGo_spec f buf []

/-- `roundF32` fixes zero. -/
theorem roundF32_zero : roundF32 0 = 0 := by
  simp [roundF32]

/-- `floorLog2` at `1/2`. -/
theorem floorLog2_half : floorLog2 (1/2 : ℚ) = -1 := by
  unfold floorLog2
  have h1 : ¬(1 ≤ (1:ℚ)/2) := by norm_num
  have h2 : ⌈((1:ℚ)/2)⁻¹⌉ = 2 := by
    rw [show ((1:ℚ)/2)⁻¹ = 2 by norm_num]
    norm_num
  have h4 : Int.toNat 2 = 2 := rfl
  have h3 : Nat.log2 2 = 1 := by norm_num [Nat.log2]
  rw [if_neg h1, h2]
  simp only [h4, h3]
  norm_num [pow2z]

/-- `1/2` is exactly representable in single precision, hence fixed by the
narrowing. -/
theorem roundF32_half : roundF32 (1/2 : ℚ) = 1/2 := by
  unfold roundF32
  have h0 : ¬((1:ℚ)/2 = 0) := by norm_num
  have habs : |((1:ℚ)/2)| = 1/2 := by
    rw [abs_of_pos]
    norm_num
  have hlt : ¬((1:ℚ)/2 < 0) := by norm_num
  rw [if_neg h0, habs, floorLog2_half, if_neg hlt]
  have hsc : pow2z (-1 - 23) = 1 / 16777216 := by
    have h24 : Int.toNat 24 = 24 := rfl
    norm_num [pow2z, h24]
  rw [hsc]
  have hm : round ((1:ℚ)/2 / (1 / 16777216)) = 8388608 := by
    rw [round_eq]
    norm_num
  rw [hm]
  norm_num

/-- `floorLog2` at `4/5`. -/
theorem floorLog2_four_fifths : floorLog2 (4/5 : ℚ) = -1 := by
  unfold floorLog2
  have h1 : ¬(1 ≤ (4:ℚ)/5) := by norm_num
  have h2 : ⌈((4:ℚ)/5)⁻¹⌉ = 2 := by
    rw [show ((4:ℚ)/5)⁻¹ = 5/4 by norm_num, Int.ceil_eq_iff]
    norm_num
  have h4 : Int.toNat 2 = 2 := rfl
  have h3 : Nat.log2 2 = 1 := by norm_num [Nat.log2]
  rw [if_neg h1, h2]
  simp only [h4, h3]
  norm_num [pow2z]

/-- `4/5` is not representable in single precision: the narrowing moves it
to the nearest 24-bit-significand value `13421773 / 2^24`. -/
theorem roundF32_four_fifths : roundF32 (4/5 : ℚ) = 13421773 / 16777216 := by
  unfold roundF32
  have h0 : ¬((4:ℚ)/5 = 0) := by norm_num
  have habs : |((4:ℚ)/5)| = 4/5 := by
    rw [abs_of_pos]
    norm_num
  have hlt : ¬((4:ℚ)/5 < 0) := by norm_num
  rw [if_neg h0, habs, floorLog2_four_fifths, if_neg hlt]
  have hsc : pow2z (-1 - 23) = 1 / 16777216 := by
    have h24 : Int.toNat 24 = 24 := rfl
    norm_num [pow2z, h24]
  rw [hsc]
  have hm : round ((4:ℚ)/5 / (1 / 16777216)) = 13421773 := by
    rw [round_eq]
    norm_num
  rw [hm]
  norm_num

/-! ## Claims -/

/-- C1: for every unit quaternion rotation `r` and every 9-element row-major
covariance buffer `C`, `transformCovariance(C, out, r)` writes
`out = R · C · Rᵗ`, where `R` is the 3×3 rotation matrix equivalent to `r`.
The statement quantifies over all of `Mat3` with no symmetry or
positive-semi-definiteness hypothesis: the buffer is treated as a dense 3×3
matrix and no validation is performed. -/
theorem transformCovariance_unit_eq_RCRt (covIn : Mat3) (r : Quaternion)
    (h : r.squaredNorm = 1) :
    transformCovariance covIn r =
      (r.toRotationMatrix.mul covIn).mul r.toRotationMatrix.transpose :=
  transformCovariance_eq covIn h

/-- Witness for C1 at a concrete unit quaternion and a concrete
(non-symmetric, hence unvalidated) buffer. -/
theorem transformCovariance_unit_eq_RCRt_witness :
    Quaternion.squaredNorm ⟨3/5, 4/5, 0, 0⟩ = 1 ∧
    transformCovariance ⟨1, 2, 3, 4, 5, 6, 7, 8, 9⟩ ⟨3/5, 4/5, 0, 0⟩ =
      (Mat3.mul (Quaternion.toRotationMatrix ⟨3/5, 4/5, 0, 0⟩)
          ⟨1, 2, 3, 4, 5, 6, 7, 8, 9⟩).mul
        (Quaternion.toRotationMatrix ⟨3/5, 4/5, 0, 0⟩).transpose :=
  ⟨by norm_num [Quaternion.squaredNorm],
    transformCovariance_unit_eq_RCRt ⟨1, 2, 3, 4, 5, 6, 7, 8, 9⟩
      ⟨3/5, 4/5, 0, 0⟩ (by norm_num [Quaternion.squaredNorm])⟩

/-- C2: `doTransform` for `PointCloud2` produces an output point stream of
the same length as the input, and for every index `i` the output point `i`
equals `rotation · in[i] + translation` (translation included), with the
rotation acting as the 3×3 matrix derived from the quaternion; each output
element is a function of the corresponding input element alone, as witnessed
by the `Option.map` form of the per-index characterisation. -/
theorem doTransformPointCloud2_pointwise (p : PointCloud2)
    (t_in : TransformStamped) :
    (doTransformPointCloud2 p t_in).points.length = p.points.length ∧
    ∀ i : ℕ, ((doTransformPointCloud2 p t_in).points)[i]? =
      (p.points)[i]?.map (fun pt =>
        { pt with
          x := (t_in.transform.rotation.toRotationMatrix.mulVec
              ⟨pt.x, pt.y, pt.z⟩).x + t_in.transform.translation.x
          y := (t_in.transform.rotation.toRotationMatrix.mulVec
              ⟨pt.x, pt.y, pt.z⟩).y + t_in.transform.translation.y
          z := (t_in.transform.rotation.toRotationMatrix.mulVec
              ⟨pt.x, pt.y, pt.z⟩).z + t_in.transform.translation.z }) := by
  refine ⟨by simp [doTransformPointCloud2], fun i => ?_⟩
  simp only [doTransformPointCloud2, List.getElem?_map]
  cases h : p.points[i]? with
  | none => rfl
  | some pt =>
    simp [transformCloudPoint, translationTimesQuat, Affine3.apply]

/-- C4: the IMU and MagneticField `doTransform` outputs do not depend on the
transform's translation: two transforms agreeing on rotation and header (and
arbitrary elsewhere, in particular in translation) produce identical outputs
on every input sample. -/
theorem doTransformImuMag_translation_independent (imu : Imu)
    (mag : MagneticField) (t1 t2 : TransformStamped)
    (hrot : t1.transform.rotation = t2.transform.rotation)
    (hhead : t1.header = t2.header) :
    doTransformImu imu t1 = doTransformImu imu t2 ∧
    doTransformMagneticField mag t1 = doTransformMagneticField mag t2 := by
  constructor <;>
    simp only [doTransformImu, doTransformMagneticField, hrot, hhead]

/-- Witness for C4: the two transforms agree on rotation and header and have
translations `(0,0,0)` and `(100,-5,7)`. -/
theorem doTransformImuMag_translation_independent_witness :
    (TransformStamped.mk ⟨0, 7, "base"⟩ "imu"
        ⟨⟨0, 0, 0⟩, ⟨3/5, 4/5, 0, 0⟩⟩).transform.rotation =
      (TransformStamped.mk ⟨0, 7, "base"⟩ "imu"
        ⟨⟨100, -5, 7⟩, ⟨3/5, 4/5, 0, 0⟩⟩).transform.rotation ∧
    (TransformStamped.mk ⟨0, 7, "base"⟩ "imu"
        ⟨⟨0, 0, 0⟩, ⟨3/5, 4/5, 0, 0⟩⟩).header =
      (TransformStamped.mk ⟨0, 7, "base"⟩ "imu"
        ⟨⟨100, -5, 7⟩, ⟨3/5, 4/5, 0, 0⟩⟩).header ∧
    (doTransformImu
        ⟨⟨0, 3, "raw"⟩, ⟨1, 0, 0, 0⟩, ⟨1, 0, 0, 0, 1, 0, 0, 0, 1⟩,
          ⟨1, 2, 3⟩, ⟨1, 0, 0, 0, 2, 0, 0, 0, 3⟩, ⟨4, 5, 6⟩,
          ⟨2, 0, 0, 0, 2, 0, 0, 0, 2⟩⟩
        (TransformStamped.mk ⟨0, 7, "base"⟩ "imu"
          ⟨⟨0, 0, 0⟩, ⟨3/5, 4/5, 0, 0⟩⟩) =
      doTransformImu
        ⟨⟨0, 3, "raw"⟩, ⟨1, 0, 0, 0⟩, ⟨1, 0, 0, 0, 1, 0, 0, 0, 1⟩,
          ⟨1, 2, 3⟩, ⟨1, 0, 0, 0, 2, 0, 0, 0, 3⟩, ⟨4, 5, 6⟩,
          ⟨2, 0, 0, 0, 2, 0, 0, 0, 2⟩⟩
        (TransformStamped.mk ⟨0, 7, "base"⟩ "imu"
          ⟨⟨100, -5, 7⟩, ⟨3/5, 4/5, 0, 0⟩⟩)) ∧
    doTransformMagneticField
        ⟨⟨0, 3, "raw"⟩, ⟨1, 2, 3⟩, ⟨1, 0, 0, 0, 2, 0, 0, 0, 3⟩⟩
        (TransformStamped.mk ⟨0, 7, "base"⟩ "imu"
          ⟨⟨0, 0, 0⟩, ⟨3/5, 4/5, 0, 0⟩⟩) =
      doTransformMagneticField
        ⟨⟨0, 3, "raw"⟩, ⟨1, 2, 3⟩, ⟨1, 0, 0, 0, 2, 0, 0, 0, 3⟩⟩
        (TransformStamped.mk ⟨0, 7, "base"⟩ "imu"
          ⟨⟨100, -5, 7⟩, ⟨3/5, 4/5, 0, 0⟩⟩) := by
  refine ⟨rfl, rfl, ?_⟩
  exact doTransformImuMag_translation_independent _ _ _ _ rfl rfl

/-- C7: symmetry is preserved: for every symmetric input buffer and every
unit quaternion, the output of `transformCovariance` is symmetric. -/
theorem transformCovariance_preserves_symmetry (covIn : Mat3)
    (r : Quaternion) (hsym : covIn.transpose = covIn)
    (h : r.squaredNorm = 1) :
    (transformCovariance covIn r).transpose = transformCovariance covIn r := by
  rw [transformCovariance_eq covIn h, Mat3.transpose_mul, Mat3.transpose_mul,
    Mat3.transpose_transpose, hsym, ← Mat3.mul_assoc3]

/-- Witness for C7 at a concrete symmetric buffer and unit quaternion. -/
theorem transformCovariance_preserves_symmetry_witness :
    Mat3.transpose ⟨1, 2, 3, 2, 4, 5, 3, 5, 6⟩ = ⟨1, 2, 3, 2, 4, 5, 3, 5, 6⟩ ∧
    Quaternion.squaredNorm ⟨3/5, 4/5, 0, 0⟩ = 1 ∧
    (transformCovariance ⟨1, 2, 3, 2, 4, 5, 3, 5, 6⟩
        ⟨3/5, 4/5, 0, 0⟩).transpose =
      transformCovariance ⟨1, 2, 3, 2, 4, 5, 3, 5, 6⟩ ⟨3/5, 4/5, 0, 0⟩ :=
  ⟨by simp [Mat3.transpose], by norm_num [Quaternion.squaredNorm],
    transformCovariance_preserves_symmetry ⟨1, 2, 3, 2, 4, 5, 3, 5, 6⟩
      ⟨3/5, 4/5, 0, 0⟩ (by simp [Mat3.transpose])
      (by norm_num [Quaternion.squaredNorm])⟩

/-- C8: the `PointCloud2` transform tolerates the output aliasing the input:
executing the loop in place on the shared buffer (writes to earlier cells
visible to later iterations) produces the same final cloud as transforming
into a distinct output. -/
theorem doTransformPointCloud2_aliasing_safe (p : PointCloud2)
    (t_in : TransformStamped) :
    doTransformPointCloud2Aliased p t_in = doTransformPointCloud2 p t_in := by
  simp [doTransformPointCloud2Aliased, doTransformPointCloud2,
    inPlaceMap_eq_map]

/-- C9: frame condition of the point-cloud transform: every field other than
the header and the x/y/z channels is copied unchanged (including the
per-point non-geometric bytes), and the output header is exactly the
transform's target header, regardless of the input's header. -/
theorem doTransformPointCloud2_frame_condition (p : PointCloud2)
    (t_in : TransformStamped) :
    (doTransformPointCloud2 p t_in).header = t_in.header ∧
    (doTransformPointCloud2 p t_in).height = p.height ∧
    (doTransformPointCloud2 p t_in).width = p.width ∧
    (doTransformPointCloud2 p t_in).fields = p.fields ∧
    (doTransformPointCloud2 p t_in).is_bigendian = p.is_bigendian ∧
    (doTransformPointCloud2 p t_in).point_step = p.point_step ∧
    (doTransformPointCloud2 p t_in).row_step = p.row_step ∧
    (doTransformPointCloud2 p t_in).is_dense = p.is_dense ∧
    (doTransformPointCloud2 p t_in).points.map CloudPoint.rest =
      p.points.map CloudPoint.rest := by
  refine ⟨rfl, rfl, rfl, rfl, rfl, rfl, rfl, rfl, ?_⟩
  simp only [doTransformPointCloud2, List.map_map]
  rfl

/-- C10 (implicit): the IMU and MagneticField transforms are also
mutation-safe under full aliasing: executing the source's write sequence on
a single shared object (each field read before the aliased field is written,
each covariance product evaluated into a temporary) gives the same final
value as transforming into a distinct output object. -/
theorem doTransformImuMag_aliasing_safe (imu : Imu) (mag : MagneticField)
    (t_in : TransformStamped) :
    doTransformImuAliased imu t_in = doTransformImu imu t_in ∧
    doTransformMagneticFieldAliased mag t_in =
      doTransformMagneticField mag t_in :=
  ⟨rfl, rfl⟩

/-- C5: the orientation transform computed by the Imu path is the
conjugation `q' = rotation ⊗ q ⊗ rotation⁻¹`, and it round-trips:
transforming by `rotation` and then by `rotation⁻¹` recovers `q` exactly
(hence in particular up to sign) for any unit quaternion `q` and unit
quaternion `rotation`. -/
theorem transformOrientation_roundtrip (r q : Quaternion)
    (hr : r.squaredNorm = 1) (hq : q.squaredNorm = 1) :
    transformOrientation r.inverse (transformOrientation r q) = q := by
  have hr' : r.w * r.w + r.x * r.x + r.y * r.y + r.z * r.z = 1 := hr
  have hc : r.conjugate.squaredNorm = 1 := by
    rw [Quaternion.squaredNorm_conjugate]
    exact hr
  unfold transformOrientation
  rw [Quaternion.inverse_of_unit hr, Quaternion.inverse_of_unit hc,
    Quaternion.conjugate_conjugate]
  refine Quaternion.ext ?_ ?_ ?_ ?_ <;> simp
  · linear_combination
      ((r.w * r.w + r.x * r.x + r.y * r.y + r.z * r.z + 1) * q.w) * hr'
  · linear_combination
      ((r.w * r.w + r.x * r.x + r.y * r.y + r.z * r.z + 1) * q.x) * hr'
  · linear_combination
      ((r.w * r.w + r.x * r.x + r.y * r.y + r.z * r.z + 1) * q.y) * hr'
  · linear_combination
      ((r.w * r.w + r.x * r.x + r.y * r.y + r.z * r.z + 1) * q.z) * hr'

/-- Witness for C5 at concrete unit quaternions. -/
theorem transformOrientation_roundtrip_witness :
    Quaternion.squaredNorm ⟨3/5, 4/5, 0, 0⟩ = 1 ∧
    Quaternion.squaredNorm ⟨0, 0, 3/5, 4/5⟩ = 1 ∧
    transformOrientation (Quaternion.inverse ⟨3/5, 4/5, 0, 0⟩)
        (transformOrientation ⟨3/5, 4/5, 0, 0⟩ ⟨0, 0, 3/5, 4/5⟩) =
      ⟨0, 0, 3/5, 4/5⟩ :=
  ⟨by norm_num [Quaternion.squaredNorm],
    by norm_num [Quaternion.squaredNorm],
    transformOrientation_roundtrip ⟨3/5, 4/5, 0, 0⟩ ⟨0, 0, 3/5, 4/5⟩
      (by norm_num [Quaternion.squaredNorm])
      (by norm_num [Quaternion.squaredNorm])⟩

/-- C6: composition law for points: applying the point transform for `A`
and then for `B` equals applying once the composed transform with rotation
`B.rot * A.rot` and translation `B.rot·A.trans + B.trans` (exactly, over
the idealised arithmetic, hence within floating-point tolerance in the
implementation). -/
theorem transformPoint_composition (a b : TransformMsg) (v : Vector3)
    (ha : a.rotation.squaredNorm = 1) (hb : b.rotation.squaredNorm = 1) :
    transformPoint b (transformPoint a v) =
      transformPoint (composeTransformMsg b a) v := by
  unfold transformPoint composeTransformMsg translationTimesQuat Affine3.apply
  dsimp only
  rw [Quaternion.toRotationMatrix_mul_apply ha hb]
  refine Vector3.ext ?_ ?_ ?_ <;> simp <;> ring

/-- Witness for C6 at concrete unit rotations and a concrete point. -/
theorem transformPoint_composition_witness :
    Quaternion.squaredNorm ⟨3/5, 4/5, 0, 0⟩ = 1 ∧
    Quaternion.squaredNorm ⟨5/13, 0, 12/13, 0⟩ = 1 ∧
    transformPoint ⟨⟨4, 5, 6⟩, ⟨5/13, 0, 12/13, 0⟩⟩
        (transformPoint ⟨⟨1, 2, 3⟩, ⟨3/5, 4/5, 0, 0⟩⟩ ⟨7, 8, 9⟩) =
      transformPoint
        (composeTransformMsg ⟨⟨4, 5, 6⟩, ⟨5/13, 0, 12/13, 0⟩⟩
          ⟨⟨1, 2, 3⟩, ⟨3/5, 4/5, 0, 0⟩⟩) ⟨7, 8, 9⟩ :=
  ⟨by norm_num [Quaternion.squaredNorm],
    by norm_num [Quaternion.squaredNorm],
    transformPoint_composition ⟨⟨1, 2, 3⟩, ⟨3/5, 4/5, 0, 0⟩⟩
      ⟨⟨4, 5, 6⟩, ⟨5/13, 0, 12/13, 0⟩⟩ ⟨7, 8, 9⟩
      (by norm_num [Quaternion.squaredNorm])
      (by norm_num [Quaternion.squaredNorm])⟩

/-- C3 counterexample: at the unit quaternion `(3/5, 4/5, 0, 0)` the
rotation matrix constructed by the point-cloud path — from the quaternion
already narrowed to single precision by the `Eigen::Quaternion<float>`
constructor at lines 66–68 — differs from the matrix built from the
double-precision quaternion, even granting the construction exact
arithmetic after the narrowing.  So the matrix is not "built from a
double-precision quaternion and only narrowed at the point of
application". -/
theorem pointCloudRotation_not_double_built :
    pointCloudRotationF32 ⟨3/5, 4/5, 0, 0⟩ ≠
      Quaternion.toRotationMatrix ⟨3/5, 4/5, 0, 0⟩ := by
  intro hEq
  have h := congrArg Mat3.m11 hEq
  simp only [pointCloudRotationF32, quatNarrowF32,
    Quaternion.toRotationMatrix_m11] at h
  rw [roundF32_four_fifths, roundF32_zero] at h
  norm_num at h

/-- C3 amended: in the point-cloud path the quaternion components are
narrowed to single precision when the float quaternion is constructed,
*before* the rotation matrix is built; consequently the constructed matrix
coincides with the double-precision construction exactly when every
component is fixed by the narrowing (is representable in single
precision). -/
theorem pointCloudRotation_narrowed_at_construction (q : Quaternion)
    (hw : roundF32 q.w = q.w) (hx : roundF32 q.x = q.x)
    (hy : roundF32 q.y = q.y) (hz : roundF32 q.z = q.z) :
    pointCloudRotationF32 q = q.toRotationMatrix := by
  unfold pointCloudRotationF32 quatNarrowF32
  rw [hw, hx, hy, hz]

/-- Witness for the amended C3 at the dyadic unit quaternion
`(1/2, 1/2, 1/2, 1/2)`. -/
theorem pointCloudRotation_narrowed_at_construction_witness :
    roundF32 (1/2 : ℚ) = 1/2 ∧
    pointCloudRotationF32 ⟨1/2, 1/2, 1/2, 1/2⟩ =
      Quaternion.toRotationMatrix ⟨1/2, 1/2, 1/2, 1/2⟩ :=
  ⟨roundF32_half,
    pointCloudRotation_narrowed_at_construction ⟨1/2, 1/2, 1/2, 1/2⟩
      roundF32_half roundF32_half roundF32_half roundF32_half⟩

end tf2
